import Mathlib

/- A shallow embedding of `src/typed.rs` of the candystore crate: the typed access
layer (`CandyTypedStore`, `CandyTypedList`, `CandyTypedDeque`) over the untyped
byte-oriented `CandyStore`.  Byte strings are `List Nat`, the underlying store is
an explicit state structure, and the store primitives (whose sources are not part
of this crate slice) are modelled from the specification (sections 3, 4 and 6). -/

set_option autoImplicit false

/-- A raw byte string as handled by the underlying store.  Serialized keys and
values (produced by the `databuf` little-endian encoding in the source) enter the
embedding as plain byte lists. -/
abbrev Bytes := List Nat

/-- The four bytes of a `u32` in memory order on the little-endian targets the
crate runs on; this is what `bytemuck::bytes_of(&K::TYPE_ID)` yields. -/
def le4 (n : Nat) : Bytes :=
  [n % 256, n / 256 % 256, n / 65536 % 256, n / 16777216 % 256]

/-- Modelled from the spec: the reserved namespace marker constant
(`TYPED_NAMESPACE`, re-exported by `typed.rs` from the store layer, whose sources
are not part of this crate slice).  The spec fixes only that it is a fixed byte
suffix reserved for typed map entries so that generic store traversal can skip
them; it is taken here to be the single byte 2. -/
def TYPED_NAMESPACE : Bytes := [2]

/-- Embeds `CandyTypedStore::make_key` (typed.rs lines 86-94): the serialized key
bytes, extended by the four bytes of `K::TYPE_ID`, extended by `TYPED_NAMESPACE`.
`kbytes` stands for `key.to_bytes::<LE>()` and `typeId` for `K::TYPE_ID`. -/
def make_key (kbytes : Bytes) (typeId : Nat) : Bytes :=
  kbytes ++ le4 typeId ++ TYPED_NAMESPACE

/-- Embeds `CandyTypedList::make_list_key` (typed.rs lines 259-266): the
serialized list-key bytes extended by the four bytes of `L::TYPE_ID` — no
namespace marker.  `CandyTypedDeque` calls this very function
(`CandyTypedList::<L, (), ()>::make_list_key`) for all of its operations. -/
def TypedList.make_list_key (kbytes : Bytes) (typeId : Nat) : Bytes :=
  kbytes ++ le4 typeId

/-- The error channel of the typed layer in the pure embedding: a decode failure
from `from_bytes::<T>` (typed.rs lines 45-47).  Store-side I/O errors do not
arise in the pure store model. -/
inductive CError where
  | decodeError
deriving DecidableEq

/-- `SetStatus` of the untyped store (spec section 6). -/
inductive SetStatus where
  | CreatedNew
  | PrevValue (v : Bytes)
deriving DecidableEq

/-- `ReplaceStatus` of the untyped store (spec section 6): replace with an
optional expected value answers DoesNotExist, PrevValue or WrongValue. -/
inductive ReplaceStatus where
  | DoesNotExist
  | PrevValue (v : Bytes)
  | WrongValue (v : Bytes)
deriving DecidableEq

/-- Modelled from the spec (section 4.3): a queue's state is the ordered sequence
of live (index, value) pairs together with the next-index counter shared by both
ends. -/
structure QueueState where
  items : List (Nat × Bytes)
  nextIdx : Nat
deriving DecidableEq

/-- Modelled from the spec: compaction policy parameters are store-internal and
opaque to the typed layer (compaction internals are a spec non-goal, section 1). -/
structure ListCompactionParams where
deriving DecidableEq

/-- Modelled from the spec (section 6): the untyped `CandyStore` state, as far as
the typed layer observes it — a byte map, an out-of-band big-value map, ordered
lists of (item-key, value) pairs addressed by list keys, and queues addressed by
queue keys. -/
structure Store where
  map : List (Bytes × Bytes)
  big : List (Bytes × Bytes)
  lists : List (Bytes × List (Bytes × Bytes))
  queues : List (Bytes × QueueState)
deriving DecidableEq

/-- Association-list lookup over byte keys. -/
def alookup {α : Type} : List (Bytes × α) → Bytes → Option α
  | [], _ => none
  | (k, v) :: rest, key => if k = key then some v else alookup rest key

/-- Association-list upsert: replaces the value in place when the key is present,
appends otherwise. -/
def ainsert {α : Type} : List (Bytes × α) → Bytes → α → List (Bytes × α)
  | [], key, v => [(key, v)]
  | (k, w) :: rest, key, v =>
    if k = key then (k, v) :: rest else (k, w) :: ainsert rest key v

/-- Association-list removal of the entry with the given key. -/
def aremove {α : Type} : List (Bytes × α) → Bytes → List (Bytes × α)
  | [], _ => []
  | (k, w) :: rest, key => if k = key then rest else (k, w) :: aremove rest key

/-- Modelled from the spec: `CandyStore::get_raw`. -/
def Store.get_raw (st : Store) (key : Bytes) : Option Bytes :=
  alookup st.map key

/-- Modelled from the spec: `CandyStore::set_raw` — unconditional upsert
answering whether an entry was created or what the previous value was. -/
def Store.set_raw (st : Store) (key val : Bytes) : Store × SetStatus :=
  match alookup st.map key with
  | none => ({ st with map := ainsert st.map key val }, .CreatedNew)
  | some old => ({ st with map := ainsert st.map key val }, .PrevValue old)

/-- Modelled from the spec: `CandyStore::replace_raw` — conditional upsert; with
no expected value the entry (when present) is overwritten, with an expected value
the write happens only when the stored bytes equal it. -/
def Store.replace_raw (st : Store) (key val : Bytes) (expected : Option Bytes) :
    Store × ReplaceStatus :=
  match alookup st.map key with
  | none => (st, .DoesNotExist)
  | some old =>
    match expected with
    | none => ({ st with map := ainsert st.map key val }, .PrevValue old)
    | some e =>
      if old = e then ({ st with map := ainsert st.map key val }, .PrevValue old)
      else (st, .WrongValue old)

/-- Modelled from the spec: `CandyStore::get_or_create_raw` — answers the
existing value, or inserts and answers the default. -/
def Store.get_or_create_raw (st : Store) (key dflt : Bytes) : Store × Bytes :=
  match alookup st.map key with
  | some v => (st, v)
  | none => ({ st with map := ainsert st.map key dflt }, dflt)

/-- Modelled from the spec: `CandyStore::remove_raw` — deletes and answers the
prior value when present. -/
def Store.remove_raw (st : Store) (key : Bytes) : Store × Option Bytes :=
  match alookup st.map key with
  | none => (st, none)
  | some old => ({ st with map := aremove st.map key }, some old)

/-- Modelled from the spec: `CandyStore::get_big` — big values live in an
out-of-band map. -/
def Store.get_big (st : Store) (key : Bytes) : Option Bytes :=
  alookup st.big key

/-- Modelled from the spec: `CandyStore::set_big` — upsert of a big value,
answering whether it was newly created. -/
def Store.set_big (st : Store) (key val : Bytes) : Store × Bool :=
  match alookup st.big key with
  | none => ({ st with big := ainsert st.big key val }, true)
  | some _ => ({ st with big := ainsert st.big key val }, false)

/-- Modelled from the spec: `CandyStore::remove_big` — deletes a big value,
answering whether it existed. -/
def Store.remove_big (st : Store) (key : Bytes) : Store × Bool :=
  match alookup st.big key with
  | none => (st, false)
  | some _ => ({ st with big := aremove st.big key }, true)

/-- The items of the list stored under the given (composite) list key; a missing
list reads as empty. -/
def Store.listItems (st : Store) (lk : Bytes) : List (Bytes × Bytes) :=
  (alookup st.lists lk).getD []

/-- Replaces the whole list stored under the given list key. -/
def Store.setList (st : Store) (lk : Bytes) (items : List (Bytes × Bytes)) : Store :=
  { st with lists := ainsert st.lists lk items }

/-- Modelled from the spec: `CandyStore::owned_get_from_list` — lookup of one
item by item key inside one list. -/
def Store.owned_get_from_list (st : Store) (lk ik : Bytes) : Option Bytes :=
  alookup (st.listItems lk) ik

/-- Modelled from the spec: `CandyStore::owned_set_in_list` — upsert of one item;
a new item is appended at the tail, an existing item keeps its position unless
`promote` is set, in which case it moves to the most-recently-touched (tail) end. -/
def Store.owned_set_in_list (st : Store) (lk ik v : Bytes) (promote : Bool) :
    Store × SetStatus :=
  let items := st.listItems lk
  match alookup items ik with
  | none => (st.setList lk (items ++ [(ik, v)]), .CreatedNew)
  | some old =>
    if promote then (st.setList lk (aremove items ik ++ [(ik, v)]), .PrevValue old)
    else (st.setList lk (ainsert items ik v), .PrevValue old)

/-- Modelled from the spec: `CandyStore::owned_replace_in_list` — the same
conditional-upsert contract as `replace_raw`, scoped to one item of one list,
with no position change. -/
def Store.owned_replace_in_list (st : Store) (lk ik v : Bytes)
    (expected : Option Bytes) : Store × ReplaceStatus :=
  let items := st.listItems lk
  match alookup items ik with
  | none => (st, .DoesNotExist)
  | some old =>
    match expected with
    | none => (st.setList lk (ainsert items ik v), .PrevValue old)
    | some e =>
      if old = e then (st.setList lk (ainsert items ik v), .PrevValue old)
      else (st, .WrongValue old)

/-- Modelled from the spec: `CandyStore::owned_get_or_create_in_list`. -/
def Store.owned_get_or_create_in_list (st : Store) (lk ik dflt : Bytes) :
    Store × Bytes :=
  let items := st.listItems lk
  match alookup items ik with
  | some v => (st, v)
  | none => (st.setList lk (items ++ [(ik, dflt)]), dflt)

/-- Modelled from the spec: `CandyStore::owned_remove_from_list`. -/
def Store.owned_remove_from_list (st : Store) (lk ik : Bytes) :
    Store × Option Bytes :=
  let items := st.listItems lk
  match alookup items ik with
  | none => (st, none)
  | some old => (st.setList lk (aremove items ik), some old)

/-- Modelled from the spec: `CandyStore::owned_iter_list` — the forward item
sequence; in the pure store model every element arrives intact. -/
def Store.owned_iter_list (st : Store) (lk : Bytes) :
    List (Except CError (Bytes × Bytes)) :=
  (st.listItems lk).map .ok

/-- Modelled from the spec: `CandyStore::owned_iter_list_backwards`. -/
def Store.owned_iter_list_backwards (st : Store) (lk : Bytes) :
    List (Except CError (Bytes × Bytes)) :=
  (st.listItems lk).reverse.map .ok

/-- Modelled from the spec: `CandyStore::owned_pop_list_head`. -/
def Store.owned_pop_list_head (st : Store) (lk : Bytes) :
    Store × Option (Bytes × Bytes) :=
  match st.listItems lk with
  | [] => (st, none)
  | kv :: rest => (st.setList lk rest, some kv)

/-- Modelled from the spec: `CandyStore::owned_pop_list_tail`. -/
def Store.owned_pop_list_tail (st : Store) (lk : Bytes) :
    Store × Option (Bytes × Bytes) :=
  match (st.listItems lk).getLast? with
  | none => (st, none)
  | some kv => (st.setList lk (st.listItems lk).dropLast, some kv)

/-- Modelled from the spec: `CandyStore::owned_peek_list_head`. -/
def Store.owned_peek_list_head (st : Store) (lk : Bytes) : Option (Bytes × Bytes) :=
  (st.listItems lk).head?

/-- Modelled from the spec: `CandyStore::owned_peek_list_tail`. -/
def Store.owned_peek_list_tail (st : Store) (lk : Bytes) : Option (Bytes × Bytes) :=
  (st.listItems lk).getLast?

/-- Modelled from the spec: `CandyStore::owned_list_len`. -/
def Store.owned_list_len (st : Store) (lk : Bytes) : Nat :=
  (st.listItems lk).length

/-- Modelled from the spec: `CandyStore::owned_discard_list` — deletes the whole
list, answering whether it existed. -/
def Store.owned_discard_list (st : Store) (lk : Bytes) : Store × Bool :=
  match alookup st.lists lk with
  | none => (st, false)
  | some _ => ({ st with lists := aremove st.lists lk }, true)

/-- Retention scan over list items: items for which the callback answers false
are dropped, a callback error stops the scan there, leaving prior removals
applied and the remaining items untouched. -/
def retainGo (f : Bytes → Bytes → Except CError Bool) :
    List (Bytes × Bytes) → List (Bytes × Bytes) × Except CError Unit
  | [] => ([], .ok ())
  | (k, v) :: rest =>
    match f k v with
    | .error e => ((k, v) :: rest, .error e)
    | .ok true =>
      let (rest', r) := retainGo f rest
      ((k, v) :: rest', r)
    | .ok false => retainGo f rest

/-- Modelled from the spec: `CandyStore::owned_retain_in_list` — invokes the
callback over every item, removing those for which it answers false, stopping at
the first error with prior removals applied. -/
def Store.owned_retain_in_list (st : Store) (lk : Bytes)
    (f : Bytes → Bytes → Except CError Bool) : Store × Except CError Unit :=
  let (items', r) := retainGo f (st.listItems lk)
  (st.setList lk items', r)

/-- Modelled from the spec: `CandyStore::compact_list_if_needed` — compaction
internals are a spec non-goal (section 1); only the key routing matters to the
typed layer, so the model never reorganizes and answers false. -/
def Store.compact_list_if_needed (st : Store) (lk : Bytes)
    (params : ListCompactionParams) : Store × Bool :=
  (st, false)

/-- Modelled from the spec (section 4.3): pushing at the head consumes the shared
next-index counter and prepends. -/
def QueueState.pushHead (q : QueueState) (v : Bytes) : QueueState :=
  ⟨(q.nextIdx, v) :: q.items, q.nextIdx + 1⟩

/-- Modelled from the spec (section 4.3): pushing at the tail consumes the same
shared next-index counter and appends. -/
def QueueState.pushTail (q : QueueState) (v : Bytes) : QueueState :=
  ⟨q.items ++ [(q.nextIdx, v)], q.nextIdx + 1⟩

/-- Modelled from the spec: popping the head element, with its index. -/
def QueueState.popHead (q : QueueState) : QueueState × Option (Nat × Bytes) :=
  match q.items with
  | [] => (q, none)
  | iv :: rest => (⟨rest, q.nextIdx⟩, some iv)

/-- Modelled from the spec: popping the tail element, with its index. -/
def QueueState.popTail (q : QueueState) : QueueState × Option (Nat × Bytes) :=
  match q.items.getLast? with
  | none => (q, none)
  | some iv => (⟨q.items.dropLast, q.nextIdx⟩, some iv)

/-- A fresh queue: no live items, next index 0. -/
def QueueState.init : QueueState := ⟨[], 0⟩

/-- The queue stored under the given queue key; a missing queue reads as fresh. -/
def Store.queueState (st : Store) (qk : Bytes) : QueueState :=
  (alookup st.queues qk).getD QueueState.init

/-- Replaces the whole queue stored under the given queue key. -/
def Store.setQueue (st : Store) (qk : Bytes) (q : QueueState) : Store :=
  { st with queues := ainsert st.queues qk q }

/-- Modelled from the spec: `CandyStore::push_to_queue_head`. -/
def Store.push_to_queue_head (st : Store) (qk v : Bytes) : Store :=
  st.setQueue qk ((st.queueState qk).pushHead v)

/-- Modelled from the spec: `CandyStore::push_to_queue_tail`. -/
def Store.push_to_queue_tail (st : Store) (qk v : Bytes) : Store :=
  st.setQueue qk ((st.queueState qk).pushTail v)

/-- Modelled from the spec: `CandyStore::pop_queue_head_with_idx`. -/
def Store.pop_queue_head_with_idx (st : Store) (qk : Bytes) :
    Store × Option (Nat × Bytes) :=
  let (q', r) := (st.queueState qk).popHead
  (st.setQueue qk q', r)

/-- Modelled from the spec: `CandyStore::pop_queue_tail_with_idx`. -/
def Store.pop_queue_tail_with_idx (st : Store) (qk : Bytes) :
    Store × Option (Nat × Bytes) :=
  let (q', r) := (st.queueState qk).popTail
  (st.setQueue qk q', r)

/-- Modelled from the spec: `CandyStore::peek_queue_head_with_idx`. -/
def Store.peek_queue_head_with_idx (st : Store) (qk : Bytes) :
    Option (Nat × Bytes) :=
  (st.queueState qk).items.head?

/-- Modelled from the spec: `CandyStore::peek_queue_tail_with_idx`. -/
def Store.peek_queue_tail_with_idx (st : Store) (qk : Bytes) :
    Option (Nat × Bytes) :=
  (st.queueState qk).items.getLast?

/-- Modelled from the spec: `CandyStore::iter_queue` — forward (index, value)
sequence; in the pure store model every element arrives intact. -/
def Store.iter_queue (st : Store) (qk : Bytes) :
    List (Except CError (Nat × Bytes)) :=
  (st.queueState qk).items.map .ok

/-- Modelled from the spec: `CandyStore::iter_queue_backwards`. -/
def Store.iter_queue_backwards (st : Store) (qk : Bytes) :
    List (Except CError (Nat × Bytes)) :=
  (st.queueState qk).items.reverse.map .ok

/-- Modelled from the spec: `CandyStore::queue_len`. -/
def Store.queue_len (st : Store) (qk : Bytes) : Nat :=
  (st.queueState qk).items.length

/-- Modelled from the spec: `CandyStore::queue_range` — the half-open interval of
indices currently valid; empty at the next-index counter when no items live. -/
def Store.queue_range (st : Store) (qk : Bytes) : Nat × Nat :=
  match (st.queueState qk).items.head?, (st.queueState qk).items.getLast? with
  | some hd, some tl => (min hd.1 tl.1, max hd.1 tl.1 + 1)
  | _, _ => ((st.queueState qk).nextIdx, (st.queueState qk).nextIdx)

/-- Embeds `CandyTypedStore::contains` (typed.rs lines 97-102), given the
composite key: `get_raw(..).is_some()` — no value bytes are deserialized. -/
def TypedStore.containsAt (st : Store) (key : Bytes) : Except CError Bool :=
  .ok (st.get_raw key).isSome

/-- `CandyTypedStore::contains`: serializes the key via `make_key` and tests
existence. -/
def TypedStore.contains (st : Store) (kb : Bytes) (tag : Nat) :
    Except CError Bool :=
  TypedStore.containsAt st (make_key kb tag)

/-- Embeds the body of `CandyTypedStore::get` (typed.rs lines 105-115), given the
composite key: the stored bytes, when present, are decoded as `V`. -/
def TypedStore.getAt {V : Type} (decV : Bytes → Except CError V) (st : Store)
    (key : Bytes) : Except CError (Option V) :=
  match st.get_raw key with
  | some vb => (decV vb).map some
  | none => .ok none

/-- `CandyTypedStore::get`. -/
def TypedStore.get {V : Type} (decV : Bytes → Except CError V) (st : Store)
    (kb : Bytes) (tag : Nat) : Except CError (Option V) :=
  TypedStore.getAt decV st (make_key kb tag)

/-- Embeds the body of `CandyTypedStore::replace` (typed.rs lines 118-139), given
the composite key.  `vb` is `val.to_bytes::<LE>()` and `eb` is
`expected_val.map(|ev| ev.to_bytes::<LE>())`.  DoesNotExist and WrongValue both
collapse to an ok-None answer; PrevValue is decoded. -/
def TypedStore.replaceAt {V : Type} (decV : Bytes → Except CError V) (st : Store)
    (key vb : Bytes) (eb : Option Bytes) : Store × Except CError (Option V) :=
  match st.replace_raw key vb eb with
  | (st', .DoesNotExist) => (st', .ok none)
  | (st', .PrevValue v) => (st', (decV v).map some)
  | (st', .WrongValue _) => (st', .ok none)

/-- `CandyTypedStore::replace`. -/
def TypedStore.replace {V : Type} (decV : Bytes → Except CError V) (st : Store)
    (kb : Bytes) (tag : Nat) (vb : Bytes) (eb : Option Bytes) :
    Store × Except CError (Option V) :=
  TypedStore.replaceAt decV st (make_key kb tag) vb eb

/-- Embeds the body of `CandyTypedStore::set` (typed.rs lines 142-157), given the
composite key: an unconditional upsert; a CreatedNew answer becomes None, a
PrevValue answer is decoded. -/
def TypedStore.setAt {V : Type} (decV : Bytes → Except CError V) (st : Store)
    (key vb : Bytes) : Store × Except CError (Option V) :=
  match st.set_raw key vb with
  | (st', .CreatedNew) => (st', .ok none)
  | (st', .PrevValue v) => (st', (decV v).map some)

/-- `CandyTypedStore::set`. -/
def TypedStore.set {V : Type} (decV : Bytes → Except CError V) (st : Store)
    (kb : Bytes) (tag : Nat) (vb : Bytes) : Store × Except CError (Option V) :=
  TypedStore.setAt decV st (make_key kb tag) vb

/-- Embeds the body of `CandyTypedStore::get_or_create` (typed.rs lines 160-176),
given the composite key. -/
def TypedStore.get_or_createAt {V : Type} (decV : Bytes → Except CError V)
    (st : Store) (key db : Bytes) : Store × Except CError V :=
  let (st', v) := st.get_or_create_raw key db
  (st', decV v)

/-- `CandyTypedStore::get_or_create`. -/
def TypedStore.get_or_create {V : Type} (decV : Bytes → Except CError V)
    (st : Store) (kb : Bytes) (tag : Nat) (db : Bytes) :
    Store × Except CError V :=
  TypedStore.get_or_createAt decV st (make_key kb tag) db

/-- Embeds the body of `CandyTypedStore::remove` (typed.rs lines 179-189), given
the composite key. -/
def TypedStore.removeAt {V : Type} (decV : Bytes → Except CError V) (st : Store)
    (key : Bytes) : Store × Except CError (Option V) :=
  match st.remove_raw key with
  | (st', none) => (st', .ok none)
  | (st', some vb) => (st', (decV vb).map some)

/-- `CandyTypedStore::remove`. -/
def TypedStore.remove {V : Type} (decV : Bytes → Except CError V) (st : Store)
    (kb : Bytes) (tag : Nat) : Store × Except CError (Option V) :=
  TypedStore.removeAt decV st (make_key kb tag)

/-- Embeds the body of `CandyTypedStore::get_big` (typed.rs lines 192-202), given
the composite key. -/
def TypedStore.get_bigAt {V : Type} (decV : Bytes → Except CError V) (st : Store)
    (key : Bytes) : Except CError (Option V) :=
  match st.get_big key with
  | some vb => (decV vb).map some
  | none => .ok none

/-- `CandyTypedStore::get_big`. -/
def TypedStore.get_big {V : Type} (decV : Bytes → Except CError V) (st : Store)
    (kb : Bytes) (tag : Nat) : Except CError (Option V) :=
  TypedStore.get_bigAt decV st (make_key kb tag)

/-- Embeds the body of `CandyTypedStore::set_big` (typed.rs lines 205-217), given
the composite key: the store's created-new boolean passes through. -/
def TypedStore.set_bigAt (st : Store) (key vb : Bytes) : Store × Bool :=
  st.set_big key vb

/-- `CandyTypedStore::set_big`. -/
def TypedStore.set_big (st : Store) (kb : Bytes) (tag : Nat) (vb : Bytes) :
    Store × Bool :=
  TypedStore.set_bigAt st (make_key kb tag) vb

/-- Embeds the body of `CandyTypedStore::remove_big` (typed.rs lines 220-226),
given the composite key. -/
def TypedStore.remove_bigAt (st : Store) (key : Bytes) : Store × Bool :=
  st.remove_big key

/-- `CandyTypedStore::remove_big`. -/
def TypedStore.remove_big (st : Store) (kb : Bytes) (tag : Nat) : Store × Bool :=
  TypedStore.remove_bigAt st (make_key kb tag)

/-- Embeds the body of `CandyTypedList::contains` (typed.rs lines 269-284), given
the composite list key; `ib` is `item_key.to_bytes::<LE>()`. -/
def TypedList.containsAt (st : Store) (lk ib : Bytes) : Except CError Bool :=
  .ok (st.owned_get_from_list lk ib).isSome

/-- `CandyTypedList::contains`. -/
def TypedList.contains (st : Store) (lb : Bytes) (tag : Nat) (ib : Bytes) :
    Except CError Bool :=
  TypedList.containsAt st (TypedList.make_list_key lb tag) ib

/-- Embeds the body of `CandyTypedList::get` (typed.rs lines 287-303), given the
composite list key. -/
def TypedList.getAt {V : Type} (decV : Bytes → Except CError V) (st : Store)
    (lk ib : Bytes) : Except CError (Option V) :=
  match st.owned_get_from_list lk ib with
  | some vb => (decV vb).map some
  | none => .ok none

/-- `CandyTypedList::get`. -/
def TypedList.get {V : Type} (decV : Bytes → Except CError V) (st : Store)
    (lb : Bytes) (tag : Nat) (ib : Bytes) : Except CError (Option V) :=
  TypedList.getAt decV st (TypedList.make_list_key lb tag) ib

/-- Embeds the body of the private `CandyTypedList::_set` (typed.rs lines
305-327), given the composite list key and the promote flag. -/
def TypedList.setAt {V : Type} (decV : Bytes → Except CError V) (st : Store)
    (lk ib vb : Bytes) (promote : Bool) : Store × Except CError (Option V) :=
  match st.owned_set_in_list lk ib vb promote with
  | (st', .CreatedNew) => (st', .ok none)
  | (st', .PrevValue v) => (st', (decV v).map some)

/-- `CandyTypedList::set`: `_set` with `promote = false`. -/
def TypedList.set {V : Type} (decV : Bytes → Except CError V) (st : Store)
    (lb : Bytes) (tag : Nat) (ib vb : Bytes) : Store × Except CError (Option V) :=
  TypedList.setAt decV st (TypedList.make_list_key lb tag) ib vb false

/-- `CandyTypedList::set_promoting`: `_set` with `promote = true`. -/
def TypedList.set_promoting {V : Type} (decV : Bytes → Except CError V)
    (st : Store) (lb : Bytes) (tag : Nat) (ib vb : Bytes) :
    Store × Except CError (Option V) :=
  TypedList.setAt decV st (TypedList.make_list_key lb tag) ib vb true

/-- Embeds the body of `CandyTypedList::get_or_create` (typed.rs lines 360-378),
given the composite list key. -/
def TypedList.get_or_createAt {V : Type} (decV : Bytes → Except CError V)
    (st : Store) (lk ib db : Bytes) : Store × Except CError V :=
  let (st', v) := st.owned_get_or_create_in_list lk ib db
  (st', decV v)

/-- `CandyTypedList::get_or_create`. -/
def TypedList.get_or_create {V : Type} (decV : Bytes → Except CError V)
    (st : Store) (lb : Bytes) (tag : Nat) (ib db : Bytes) :
    Store × Except CError V :=
  TypedList.get_or_createAt decV st (TypedList.make_list_key lb tag) ib db

/-- Embeds the body of `CandyTypedList::replace` (typed.rs lines 381-409), given
the composite list key: DoesNotExist and WrongValue both collapse to an ok-None
answer; PrevValue is decoded. -/
def TypedList.replaceAt {V : Type} (decV : Bytes → Except CError V) (st : Store)
    (lk ib vb : Bytes) (eb : Option Bytes) : Store × Except CError (Option V) :=
  match st.owned_replace_in_list lk ib vb eb with
  | (st', .DoesNotExist) => (st', .ok none)
  | (st', .PrevValue v) => (st', (decV v).map some)
  | (st', .WrongValue _) => (st', .ok none)

/-- `CandyTypedList::replace`. -/
def TypedList.replace {V : Type} (decV : Bytes → Except CError V) (st : Store)
    (lb : Bytes) (tag : Nat) (ib vb : Bytes) (eb : Option Bytes) :
    Store × Except CError (Option V) :=
  TypedList.replaceAt decV st (TypedList.make_list_key lb tag) ib vb eb

/-- Embeds the body of `CandyTypedList::remove` (typed.rs lines 412-428), given
the composite list key. -/
def TypedList.removeAt {V : Type} (decV : Bytes → Except CError V) (st : Store)
    (lk ib : Bytes) : Store × Except CError (Option V) :=
  match st.owned_remove_from_list lk ib with
  | (st', none) => (st', .ok none)
  | (st', some vb) => (st', (decV vb).map some)

/-- `CandyTypedList::remove`. -/
def TypedList.remove {V : Type} (decV : Bytes → Except CError V) (st : Store)
    (lb : Bytes) (tag : Nat) (ib : Bytes) : Store × Except CError (Option V) :=
  TypedList.removeAt decV st (TypedList.make_list_key lb tag) ib

/-- The per-element mapping of `CandyTypedList::iter` and `iter_backwards`
(typed.rs lines 439-446 and 460-467): store errors pass through, an intact pair
has its key and value decoded, a decode failure surfaces as the element's error. -/
def TypedList.iterItem {K V : Type} (decK : Bytes → Except CError K)
    (decV : Bytes → Except CError V) :
    Except CError (Bytes × Bytes) → Except CError (K × V)
  | .error e => .error e
  | .ok (k, v) => do
    let key ← decK k
    let val ← decV v
    .ok (key, val)

/-- Embeds the body of `CandyTypedList::iter` (typed.rs lines 431-447), given the
composite list key. -/
def TypedList.iterAt {K V : Type} (decK : Bytes → Except CError K)
    (decV : Bytes → Except CError V) (st : Store) (lk : Bytes) :
    List (Except CError (K × V)) :=
  (st.owned_iter_list lk).map (TypedList.iterItem decK decV)

/-- `CandyTypedList::iter`. -/
def TypedList.iter {K V : Type} (decK : Bytes → Except CError K)
    (decV : Bytes → Except CError V) (st : Store) (lb : Bytes) (tag : Nat) :
    List (Except CError (K × V)) :=
  TypedList.iterAt decK decV st (TypedList.make_list_key lb tag)

/-- Embeds the body of `CandyTypedList::iter_backwards` (typed.rs lines 450-468),
given the composite list key. -/
def TypedList.iter_backwardsAt {K V : Type} (decK : Bytes → Except CError K)
    (decV : Bytes → Except CError V) (st : Store) (lk : Bytes) :
    List (Except CError (K × V)) :=
  (st.owned_iter_list_backwards lk).map (TypedList.iterItem decK decV)

/-- `CandyTypedList::iter_backwards`. -/
def TypedList.iter_backwards {K V : Type} (decK : Bytes → Except CError K)
    (decV : Bytes → Except CError V) (st : Store) (lb : Bytes) (tag : Nat) :
    List (Except CError (K × V)) :=
  TypedList.iter_backwardsAt decK decV st (TypedList.make_list_key lb tag)

/-- Embeds the body of `CandyTypedList::discard` (typed.rs lines 471-477), given
the composite list key. -/
def TypedList.discardAt (st : Store) (lk : Bytes) : Store × Bool :=
  st.owned_discard_list lk

/-- `CandyTypedList::discard`. -/
def TypedList.discard (st : Store) (lb : Bytes) (tag : Nat) : Store × Bool :=
  TypedList.discardAt st (TypedList.make_list_key lb tag)

/-- Embeds the body of `CandyTypedList::compact_if_needed` (typed.rs lines
480-490), given the composite list key. -/
def TypedList.compact_if_neededAt (st : Store) (lk : Bytes)
    (params : ListCompactionParams) : Store × Bool :=
  st.compact_list_if_needed lk params

/-- `CandyTypedList::compact_if_needed`. -/
def TypedList.compact_if_needed (st : Store) (lb : Bytes) (tag : Nat)
    (params : ListCompactionParams) : Store × Bool :=
  TypedList.compact_if_neededAt st (TypedList.make_list_key lb tag) params

/-- Embeds the body of `CandyTypedList::pop_tail` (typed.rs lines 493-502), given
the composite list key. -/
def TypedList.pop_tailAt {K V : Type} (decK : Bytes → Except CError K)
    (decV : Bytes → Except CError V) (st : Store) (lk : Bytes) :
    Store × Except CError (Option (K × V)) :=
  match st.owned_pop_list_tail lk with
  | (st', none) => (st', .ok none)
  | (st', some (k, v)) => (st', TypedList.iterItem decK decV (.ok (k, v)) |>.map some)

/-- `CandyTypedList::pop_tail`. -/
def TypedList.pop_tail {K V : Type} (decK : Bytes → Except CError K)
    (decV : Bytes → Except CError V) (st : Store) (lb : Bytes) (tag : Nat) :
    Store × Except CError (Option (K × V)) :=
  TypedList.pop_tailAt decK decV st (TypedList.make_list_key lb tag)

/-- Embeds the body of `CandyTypedList::pop_head` (typed.rs lines 505-514), given
the composite list key. -/
def TypedList.pop_headAt {K V : Type} (decK : Bytes → Except CError K)
    (decV : Bytes → Except CError V) (st : Store) (lk : Bytes) :
    Store × Except CError (Option (K × V)) :=
  match st.owned_pop_list_head lk with
  | (st', none) => (st', .ok none)
  | (st', some (k, v)) => (st', TypedList.iterItem decK decV (.ok (k, v)) |>.map some)

/-- `CandyTypedList::pop_head`. -/
def TypedList.pop_head {K V : Type} (decK : Bytes → Except CError K)
    (decV : Bytes → Except CError V) (st : Store) (lb : Bytes) (tag : Nat) :
    Store × Except CError (Option (K × V)) :=
  TypedList.pop_headAt decK decV st (TypedList.make_list_key lb tag)

/-- Embeds the body of `CandyTypedList::peek_tail` (typed.rs lines 517-526),
given the composite list key. -/
def TypedList.peek_tailAt {K V : Type} (decK : Bytes → Except CError K)
    (decV : Bytes → Except CError V) (st : Store) (lk : Bytes) :
    Except CError (Option (K × V)) :=
  match st.owned_peek_list_tail lk with
  | none => .ok none
  | some (k, v) => TypedList.iterItem decK decV (.ok (k, v)) |>.map some

/-- `CandyTypedList::peek_tail`. -/
def TypedList.peek_tail {K V : Type} (decK : Bytes → Except CError K)
    (decV : Bytes → Except CError V) (st : Store) (lb : Bytes) (tag : Nat) :
    Except CError (Option (K × V)) :=
  TypedList.peek_tailAt decK decV st (TypedList.make_list_key lb tag)

/-- Embeds the body of `CandyTypedList::peek_head` (typed.rs lines 529-538),
given the composite list key. -/
def TypedList.peek_headAt {K V : Type} (decK : Bytes → Except CError K)
    (decV : Bytes → Except CError V) (st : Store) (lk : Bytes) :
    Except CError (Option (K × V)) :=
  match st.owned_peek_list_head lk with
  | none => .ok none
  | some (k, v) => TypedList.iterItem decK decV (.ok (k, v)) |>.map some

/-- `CandyTypedList::peek_head`. -/
def TypedList.peek_head {K V : Type} (decK : Bytes → Except CError K)
    (decV : Bytes → Except CError V) (st : Store) (lb : Bytes) (tag : Nat) :
    Except CError (Option (K × V)) :=
  TypedList.peek_headAt decK decV st (TypedList.make_list_key lb tag)

/-- Embeds the body of `CandyTypedList::len` (typed.rs lines 541-546), given the
composite list key. -/
def TypedList.lenAt (st : Store) (lk : Bytes) : Nat :=
  st.owned_list_len lk

/-- `CandyTypedList::len`. -/
def TypedList.len (st : Store) (lb : Bytes) (tag : Nat) : Nat :=
  TypedList.lenAt st (TypedList.make_list_key lb tag)

/-- Embeds the body of `CandyTypedList::retain` (typed.rs lines 549-563), given
the composite list key: the store-side scan runs a closure that decodes the item
key and value and then asks the typed callback. -/
def TypedList.retainAt {K V : Type} (decK : Bytes → Except CError K)
    (decV : Bytes → Except CError V) (st : Store) (lk : Bytes)
    (func : K → V → Except CError Bool) : Store × Except CError Unit :=
  st.owned_retain_in_list lk (fun k v => do
    let tk ← decK k
    let tv ← decV v
    func tk tv)

/-- `CandyTypedList::retain`. -/
def TypedList.retain {K V : Type} (decK : Bytes → Except CError K)
    (decV : Bytes → Except CError V) (st : Store) (lb : Bytes) (tag : Nat)
    (func : K → V → Except CError Bool) : Store × Except CError Unit :=
  TypedList.retainAt decK decV st (TypedList.make_list_key lb tag) func

/-- Embeds the body of `CandyTypedDeque::push_head` (typed.rs lines 595-608),
given the composite queue key (built by `TypedList.make_list_key`, as in the
source). -/
def TypedDeque.push_headAt (st : Store) (qk vb : Bytes) : Store :=
  st.push_to_queue_head qk vb

/-- `CandyTypedDeque::push_head`. -/
def TypedDeque.push_head (st : Store) (qb : Bytes) (tag : Nat) (vb : Bytes) :
    Store :=
  TypedDeque.push_headAt st (TypedList.make_list_key qb tag) vb

/-- Embeds the body of `CandyTypedDeque::push_tail` (typed.rs lines 611-624),
given the composite queue key. -/
def TypedDeque.push_tailAt (st : Store) (qk vb : Bytes) : Store :=
  st.push_to_queue_tail qk vb

/-- `CandyTypedDeque::push_tail`. -/
def TypedDeque.push_tail (st : Store) (qb : Bytes) (tag : Nat) (vb : Bytes) :
    Store :=
  TypedDeque.push_tailAt st (TypedList.make_list_key qb tag) vb

/-- Embeds the body of `CandyTypedDeque::pop_head_with_idx` (typed.rs lines
627-636), given the composite queue key: the popped value bytes are decoded (the
element is already removed when decoding fails). -/
def TypedDeque.pop_head_with_idxAt {V : Type} (decV : Bytes → Except CError V)
    (st : Store) (qk : Bytes) : Store × Except CError (Option (Nat × V)) :=
  match st.pop_queue_head_with_idx qk with
  | (st', none) => (st', .ok none)
  | (st', some (idx, v)) =>
    match decV v with
    | .ok w => (st', .ok (some (idx, w)))
    | .error e => (st', .error e)

/-- `CandyTypedDeque::pop_head_with_idx`. -/
def TypedDeque.pop_head_with_idx {V : Type} (decV : Bytes → Except CError V)
    (st : Store) (qb : Bytes) (tag : Nat) :
    Store × Except CError (Option (Nat × V)) :=
  TypedDeque.pop_head_with_idxAt decV st (TypedList.make_list_key qb tag)

/-- `CandyTypedDeque::pop_head` (typed.rs lines 639-644): delegates to
`pop_head_with_idx` and drops the index from the answer. -/
def TypedDeque.pop_head {V : Type} (decV : Bytes → Except CError V) (st : Store)
    (qb : Bytes) (tag : Nat) : Store × Except CError (Option V) :=
  let (st', r) := TypedDeque.pop_head_with_idx decV st qb tag
  match r with
  | .error e => (st', .error e)
  | .ok o => (st', .ok (o.map Prod.snd))

/-- Embeds the body of `CandyTypedDeque::pop_tail_with_idx` (typed.rs lines
647-656), given the composite queue key. -/
def TypedDeque.pop_tail_with_idxAt {V : Type} (decV : Bytes → Except CError V)
    (st : Store) (qk : Bytes) : Store × Except CError (Option (Nat × V)) :=
  match st.pop_queue_tail_with_idx qk with
  | (st', none) => (st', .ok none)
  | (st', some (idx, v)) =>
    match decV v with
    | .ok w => (st', .ok (some (idx, w)))
    | .error e => (st', .error e)

/-- `CandyTypedDeque::pop_tail_with_idx`. -/
def TypedDeque.pop_tail_with_idx {V : Type} (decV : Bytes → Except CError V)
    (st : Store) (qb : Bytes) (tag : Nat) :
    Store × Except CError (Option (Nat × V)) :=
  TypedDeque.pop_tail_with_idxAt decV st (TypedList.make_list_key qb tag)

/-- `CandyTypedDeque::pop_tail` (typed.rs lines 659-664): delegates to
`pop_tail_with_idx` and drops the index from the answer. -/
def TypedDeque.pop_tail {V : Type} (decV : Bytes → Except CError V) (st : Store)
    (qb : Bytes) (tag : Nat) : Store × Except CError (Option V) :=
  let (st', r) := TypedDeque.pop_tail_with_idx decV st qb tag
  match r with
  | .error e => (st', .error e)
  | .ok o => (st', .ok (o.map Prod.snd))

/-- Embeds the body of `CandyTypedDeque::peek_head_with_idx` (typed.rs lines
667-679), given the composite queue key. -/
def TypedDeque.peek_head_with_idxAt {V : Type} (decV : Bytes → Except CError V)
    (st : Store) (qk : Bytes) : Except CError (Option (Nat × V)) :=
  match st.peek_queue_head_with_idx qk with
  | none => .ok none
  | some (idx, v) =>
    match decV v with
    | .ok w => .ok (some (idx, w))
    | .error e => .error e

/-- `CandyTypedDeque::peek_head_with_idx`. -/
def TypedDeque.peek_head_with_idx {V : Type} (decV : Bytes → Except CError V)
    (st : Store) (qb : Bytes) (tag : Nat) : Except CError (Option (Nat × V)) :=
  TypedDeque.peek_head_with_idxAt decV st (TypedList.make_list_key qb tag)

/-- `CandyTypedDeque::peek_head` (typed.rs lines 682-687): delegates to
`peek_head_with_idx` and drops the index from the answer. -/
def TypedDeque.peek_head {V : Type} (decV : Bytes → Except CError V) (st : Store)
    (qb : Bytes) (tag : Nat) : Except CError (Option V) :=
  match TypedDeque.peek_head_with_idx decV st qb tag with
  | .error e => .error e
  | .ok o => .ok (o.map Prod.snd)

/-- Embeds the body of `CandyTypedDeque::peek_tail_with_idx` (typed.rs lines
690-702), given the composite queue key. -/
def TypedDeque.peek_tail_with_idxAt {V : Type} (decV : Bytes → Except CError V)
    (st : Store) (qk : Bytes) : Except CError (Option (Nat × V)) :=
  match st.peek_queue_tail_with_idx qk with
  | none => .ok none
  | some (idx, v) =>
    match decV v with
    | .ok w => .ok (some (idx, w))
    | .error e => .error e

/-- `CandyTypedDeque::peek_tail_with_idx`. -/
def TypedDeque.peek_tail_with_idx {V : Type} (decV : Bytes → Except CError V)
    (st : Store) (qb : Bytes) (tag : Nat) : Except CError (Option (Nat × V)) :=
  TypedDeque.peek_tail_with_idxAt decV st (TypedList.make_list_key qb tag)

/-- `CandyTypedDeque::peek_tail` (typed.rs lines 705-710): delegates to
`peek_tail_with_idx` and drops the index from the answer. -/
def TypedDeque.peek_tail {V : Type} (decV : Bytes → Except CError V) (st : Store)
    (qb : Bytes) (tag : Nat) : Except CError (Option V) :=
  match TypedDeque.peek_tail_with_idx decV st qb tag with
  | .error e => .error e
  | .ok o => .ok (o.map Prod.snd)

/-- The per-element mapping of `CandyTypedDeque::iter` and `iter_backwards`
(typed.rs lines 721-724 and 738-741).  The source maps an intact element
`Ok((idx, v))` to `Ok((idx, from_bytes::<V>(&v).unwrap()))`: the `unwrap` panics
when the value bytes fail to decode.  The panic outcome is modelled as `none`; a
yielded item is `some`. -/
def TypedDeque.iterItem {V : Type} (decV : Bytes → Except CError V) :
    Except CError (Nat × Bytes) → Option (Except CError (Nat × V))
  | .error e => some (.error e)
  | .ok (idx, v) =>
    match decV v with
    | .ok w => some (.ok (idx, w))
    | .error _ => none

/-- Embeds the body of `CandyTypedDeque::iter` (typed.rs lines 713-725), given
the composite queue key. -/
def TypedDeque.iterAt {V : Type} (decV : Bytes → Except CError V) (st : Store)
    (qk : Bytes) : List (Option (Except CError (Nat × V))) :=
  (st.iter_queue qk).map (TypedDeque.iterItem decV)

/-- `CandyTypedDeque::iter`. -/
def TypedDeque.iter {V : Type} (decV : Bytes → Except CError V) (st : Store)
    (qb : Bytes) (tag : Nat) : List (Option (Except CError (Nat × V))) :=
  TypedDeque.iterAt decV st (TypedList.make_list_key qb tag)

/-- Embeds the body of `CandyTypedDeque::iter_backwards` (typed.rs lines
728-742), given the composite queue key. -/
def TypedDeque.iter_backwardsAt {V : Type} (decV : Bytes → Except CError V)
    (st : Store) (qk : Bytes) : List (Option (Except CError (Nat × V))) :=
  (st.iter_queue_backwards qk).map (TypedDeque.iterItem decV)

/-- `CandyTypedDeque::iter_backwards`. -/
def TypedDeque.iter_backwards {V : Type} (decV : Bytes → Except CError V)
    (st : Store) (qb : Bytes) (tag : Nat) :
    List (Option (Except CError (Nat × V))) :=
  TypedDeque.iter_backwardsAt decV st (TypedList.make_list_key qb tag)

/-- Embeds the body of `CandyTypedDeque::len` (typed.rs lines 744-750), given the
composite queue key. -/
def TypedDeque.lenAt (st : Store) (qk : Bytes) : Nat :=
  st.queue_len qk

/-- `CandyTypedDeque::len`. -/
def TypedDeque.len (st : Store) (qb : Bytes) (tag : Nat) : Nat :=
  TypedDeque.lenAt st (TypedList.make_list_key qb tag)

/-- Embeds the body of `CandyTypedDeque::range` (typed.rs lines 752-758), given
the composite queue key. -/
def TypedDeque.rangeAt (st : Store) (qk : Bytes) : Nat × Nat :=
  st.queue_range qk

/-- `CandyTypedDeque::range`. -/
def TypedDeque.range (st : Store) (qb : Bytes) (tag : Nat) : Nat × Nat :=
  TypedDeque.rangeAt st (TypedList.make_list_key qb tag)

/-- One typed-deque operation on a single queue, as the claim about index
monotonicity quantifies over interleavings: a head push, a tail push, a head pop
or a tail pop. -/
inductive QOp where
  | pushHead (v : Bytes)
  | pushTail (v : Bytes)
  | popHead
  | popTail

/-- The queue-state transition of one operation, built from the same
`QueueState` primitives that the store operations behind
`TypedDeque.push_head`, `push_tail`, `pop_head_with_idx` and
`pop_tail_with_idx` apply to the queue stored under the composite key. -/
def QueueState.applyOp (q : QueueState) : QOp → QueueState
  | .pushHead v => q.pushHead v
  | .pushTail v => q.pushTail v
  | .popHead => q.popHead.1
  | .popTail => q.popTail.1

/-- The indices consumed by the pushes of an operation sequence, in push order:
each push (head or tail) consumes the shared `nextIdx` counter. -/
def pushTrace (q : QueueState) : List QOp → List Nat
  | [] => []
  | op :: ops =>
    match op with
    | .pushHead _ => q.nextIdx :: pushTrace (q.applyOp op) ops
    | .pushTail _ => q.nextIdx :: pushTrace (q.applyOp op) ops
    | .popHead => pushTrace (q.applyOp .popHead) ops
    | .popTail => pushTrace (q.applyOp .popTail) ops

/-- The indices returned by the pops of an operation sequence, in pop order. -/
def popTrace (q : QueueState) : List QOp → List Nat
  | [] => []
  | op :: ops =>
    match op with
    | .pushHead _ => popTrace (q.applyOp op) ops
    | .pushTail _ => popTrace (q.applyOp op) ops
    | .popHead =>
      match q.popHead.2 with
      | some iv => iv.1 :: popTrace (q.applyOp .popHead) ops
      | none => popTrace (q.applyOp .popHead) ops
    | .popTail =>
      match q.popTail.2 with
      | some iv => iv.1 :: popTrace (q.applyOp .popTail) ops
      | none => popTrace (q.applyOp .popTail) ops

/-- The `databuf` encoding of `bool` (a single byte, 0 or 1), used to
instantiate the type-parametric operations on concrete inputs. -/
def encBool : Bool → Bytes
  | false => [0]
  | true => [1]

/-- The `databuf` decoding of `bool`: any byte string other than a single 0 or 1
fails to decode. -/
def decBool : Bytes → Except CError Bool
  | [0] => .ok false
  | [1] => .ok true
  | _ => .error .decodeError

/-- A concrete store holding one typed map entry: the composite key of the
serialized key `[9]` under type tag 15 maps to the encoding of `true`. -/
def demoStoreCas : Store :=
  ⟨[(make_key [9] 15, encBool true)], [], [(TypedList.make_list_key [9] 15, [([4], encBool true)])], []⟩

/-- A concrete store exercising the iterators: under the composite list/queue key
of the serialized identifier `[5]` with type tag 4 it holds a two-item list whose
second value bytes `[7]` decode as no `bool`, and a two-element queue whose
second value bytes `[7]` decode as no `bool`. -/
def demoStoreIter : Store :=
  ⟨[], [],
   [(TypedList.make_list_key [5] 4, [([0], [1]), ([1], [7])])],
   [(TypedList.make_list_key [5] 4, ⟨[(0, [1]), (1, [7])], 2⟩)]⟩

theorem alookup_ainsert_ne {α : Type} (m : List (Bytes × α)) (k1 k2 : Bytes)
    (v : α) (h : k1 ≠ k2) : alookup (ainsert m k2 v) k1 = alookup m k1 := by
  induction m with
  | nil => simp [ainsert, alookup, Ne.symm h]
  | cons hd tl ih =>
    obtain ⟨k, w⟩ := hd
    by_cases hk : k = k2
    · subst hk
      simp [ainsert, alookup, Ne.symm h]
    · simp only [ainsert, if_neg hk, alookup]
      split
      · rfl
      · exact ih

/-- Decomposition of a list along its last element. -/
theorem eq_dropLast_append_of_getLast? {α : Type} (l : List α) (a : α)
    (h : l.getLast? = some a) : l = l.dropLast ++ [a] :=
  (List.dropLast_append_getLast? a (by simp [Option.mem_def, h])).symm

/-- C1: for every map key (as its serialized little-endian bytes) the composite
byte key built by `make_key` is exactly the serialized key followed by the four
bytes of `K::TYPE_ID` followed by the `TYPED_NAMESPACE` marker, and every
`CandyTypedStore` operation — contains, get, set, replace, get_or_create,
remove, get_big, set_big, remove_big — addresses the underlying store at
exactly that composite key. -/
theorem C1_composite_map_key {V : Type} (decV : Bytes → Except CError V)
    (st : Store) (kb vb db : Bytes) (tag : Nat) (eb : Option Bytes) :
    make_key kb tag = kb ++ le4 tag ++ TYPED_NAMESPACE
    ∧ TypedStore.contains st kb tag =
        TypedStore.containsAt st (kb ++ le4 tag ++ TYPED_NAMESPACE)
    ∧ TypedStore.get decV st kb tag =
        TypedStore.getAt decV st (kb ++ le4 tag ++ TYPED_NAMESPACE)
    ∧ TypedStore.set decV st kb tag vb =
        TypedStore.setAt decV st (kb ++ le4 tag ++ TYPED_NAMESPACE) vb
    ∧ TypedStore.replace decV st kb tag vb eb =
        TypedStore.replaceAt decV st (kb ++ le4 tag ++ TYPED_NAMESPACE) vb eb
    ∧ TypedStore.get_or_create decV st kb tag db =
        TypedStore.get_or_createAt decV st (kb ++ le4 tag ++ TYPED_NAMESPACE) db
    ∧ TypedStore.remove decV st kb tag =
        TypedStore.removeAt decV st (kb ++ le4 tag ++ TYPED_NAMESPACE)
    ∧ TypedStore.get_big decV st kb tag =
        TypedStore.get_bigAt decV st (kb ++ le4 tag ++ TYPED_NAMESPACE)
    ∧ TypedStore.set_big st kb tag vb =
        TypedStore.set_bigAt st (kb ++ le4 tag ++ TYPED_NAMESPACE) vb
    ∧ TypedStore.remove_big st kb tag =
        TypedStore.remove_bigAt st (kb ++ le4 tag ++ TYPED_NAMESPACE) :=
  ⟨rfl, rfl, rfl, rfl, rfl, rfl, rfl, rfl, rfl, rfl⟩

/-- C2: the composite list/queue key is exactly the serialized identifier
followed by the four bytes of `L::TYPE_ID`, with no namespace marker, and every
`CandyTypedList` and `CandyTypedDeque` operation addresses the store at exactly
the key built by the one shared function `TypedList.make_list_key`, so for the
same identifier bytes and tag the list and the deque produce byte-for-byte the
same key. -/
theorem C2_composite_list_key {K V : Type} (decK : Bytes → Except CError K)
    (decV : Bytes → Except CError V) (st : Store) (lb ib vb db : Bytes)
    (tag : Nat) (eb : Option Bytes) (params : ListCompactionParams)
    (func : K → V → Except CError Bool) :
    TypedList.make_list_key lb tag = lb ++ le4 tag
    ∧ TypedList.contains st lb tag ib =
        TypedList.containsAt st (lb ++ le4 tag) ib
    ∧ TypedList.get decV st lb tag ib =
        TypedList.getAt decV st (lb ++ le4 tag) ib
    ∧ TypedList.set decV st lb tag ib vb =
        TypedList.setAt decV st (lb ++ le4 tag) ib vb false
    ∧ TypedList.set_promoting decV st lb tag ib vb =
        TypedList.setAt decV st (lb ++ le4 tag) ib vb true
    ∧ TypedList.get_or_create decV st lb tag ib db =
        TypedList.get_or_createAt decV st (lb ++ le4 tag) ib db
    ∧ TypedList.replace decV st lb tag ib vb eb =
        TypedList.replaceAt decV st (lb ++ le4 tag) ib vb eb
    ∧ TypedList.remove decV st lb tag ib =
        TypedList.removeAt decV st (lb ++ le4 tag) ib
    ∧ TypedList.iter decK decV st lb tag =
        TypedList.iterAt decK decV st (lb ++ le4 tag)
    ∧ TypedList.iter_backwards decK decV st lb tag =
        TypedList.iter_backwardsAt decK decV st (lb ++ le4 tag)
    ∧ TypedList.discard st lb tag = TypedList.discardAt st (lb ++ le4 tag)
    ∧ TypedList.compact_if_needed st lb tag params =
        TypedList.compact_if_neededAt st (lb ++ le4 tag) params
    ∧ TypedList.pop_tail decK decV st lb tag =
        TypedList.pop_tailAt decK decV st (lb ++ le4 tag)
    ∧ TypedList.pop_head decK decV st lb tag =
        TypedList.pop_headAt decK decV st (lb ++ le4 tag)
    ∧ TypedList.peek_tail decK decV st lb tag =
        TypedList.peek_tailAt decK decV st (lb ++ le4 tag)
    ∧ TypedList.peek_head decK decV st lb tag =
        TypedList.peek_headAt decK decV st (lb ++ le4 tag)
    ∧ TypedList.len st lb tag = TypedList.lenAt st (lb ++ le4 tag)
    ∧ TypedList.retain decK decV st lb tag func =
        TypedList.retainAt decK decV st (lb ++ le4 tag) func
    ∧ TypedDeque.push_head st lb tag vb =
        TypedDeque.push_headAt st (lb ++ le4 tag) vb
    ∧ TypedDeque.push_tail st lb tag vb =
        TypedDeque.push_tailAt st (lb ++ le4 tag) vb
    ∧ TypedDeque.pop_head_with_idx decV st lb tag =
        TypedDeque.pop_head_with_idxAt decV st (lb ++ le4 tag)
    ∧ TypedDeque.pop_tail_with_idx decV st lb tag =
        TypedDeque.pop_tail_with_idxAt decV st (lb ++ le4 tag)
    ∧ TypedDeque.peek_head_with_idx decV st lb tag =
        TypedDeque.peek_head_with_idxAt decV st (lb ++ le4 tag)
    ∧ TypedDeque.peek_tail_with_idx decV st lb tag =
        TypedDeque.peek_tail_with_idxAt decV st (lb ++ le4 tag)
    ∧ TypedDeque.iter decV st lb tag = TypedDeque.iterAt decV st (lb ++ le4 tag)
    ∧ TypedDeque.iter_backwards decV st lb tag =
        TypedDeque.iter_backwardsAt decV st (lb ++ le4 tag)
    ∧ TypedDeque.len st lb tag = TypedDeque.lenAt st (lb ++ le4 tag)
    ∧ TypedDeque.range st lb tag = TypedDeque.rangeAt st (lb ++ le4 tag) :=
  ⟨rfl, rfl, rfl, rfl, rfl, rfl, rfl, rfl, rfl, rfl, rfl, rfl, rfl, rfl, rfl,
   rfl, rfl, rfl, rfl, rfl, rfl, rfl, rfl, rfl, rfl, rfl, rfl, rfl⟩

/-- C8: `contains` answers exactly whether a value exists under the composite
map key; it performs no deserialization of the stored bytes (it is not even
parameterized by a value decoder) and so never fails with a decode error. -/
theorem C8_contains_no_decode (st : Store) (kb : Bytes) (tag : Nat) :
    TypedStore.contains st kb tag =
      Except.ok (st.get_raw (kb ++ le4 tag ++ TYPED_NAMESPACE)).isSome
    ∧ ∀ e : CError, TypedStore.contains st kb tag ≠ Except.error e :=
  ⟨rfl, fun _ h => Except.noConfusion h⟩

/-- C10: each index-less pop or peek of the deque returns exactly the value
component of its `_with_idx` counterpart (and, for the pops, effects the same
store change). -/
theorem C10_pop_peek_drop_idx {V : Type} (decV : Bytes → Except CError V)
    (st : Store) (qb : Bytes) (tag : Nat) :
    (TypedDeque.pop_head decV st qb tag).1 =
      (TypedDeque.pop_head_with_idx decV st qb tag).1
    ∧ (TypedDeque.pop_head decV st qb tag).2 =
      ((TypedDeque.pop_head_with_idx decV st qb tag).2).map (Option.map Prod.snd)
    ∧ (TypedDeque.pop_tail decV st qb tag).1 =
      (TypedDeque.pop_tail_with_idx decV st qb tag).1
    ∧ (TypedDeque.pop_tail decV st qb tag).2 =
      ((TypedDeque.pop_tail_with_idx decV st qb tag).2).map (Option.map Prod.snd)
    ∧ TypedDeque.peek_head decV st qb tag =
      (TypedDeque.peek_head_with_idx decV st qb tag).map (Option.map Prod.snd)
    ∧ TypedDeque.peek_tail decV st qb tag =
      (TypedDeque.peek_tail_with_idx decV st qb tag).map (Option.map Prod.snd) := by
  refine ⟨?_, ?_, ?_, ?_, ?_, ?_⟩
  · rcases hp : TypedDeque.pop_head_with_idx decV st qb tag with ⟨st', r⟩
    cases r <;> simp [TypedDeque.pop_head, hp]
  · rcases hp : TypedDeque.pop_head_with_idx decV st qb tag with ⟨st', r⟩
    cases r <;> simp [TypedDeque.pop_head, hp, Except.map]
  · rcases hp : TypedDeque.pop_tail_with_idx decV st qb tag with ⟨st', r⟩
    cases r <;> simp [TypedDeque.pop_tail, hp]
  · rcases hp : TypedDeque.pop_tail_with_idx decV st qb tag with ⟨st', r⟩
    cases r <;> simp [TypedDeque.pop_tail, hp, Except.map]
  · rcases hp : TypedDeque.peek_head_with_idx decV st qb tag with r
    cases r <;> simp [TypedDeque.peek_head, hp, Except.map]
  · rcases hp : TypedDeque.peek_tail_with_idx decV st qb tag with r
    cases r <;> simp [TypedDeque.peek_tail, hp, Except.map]

/-- C3: two key types with different `TYPE_ID`s (any two distinct `u32` values)
always produce distinct composite map keys, even when the serialized key bytes
coincide, and a typed set through one tag leaves every read through the other
tag unchanged — two `CandyTypedStore` views with different key types never
observe each other's entries. -/
theorem C3_tag_disjointness {V1 V2 : Type} (decV1 : Bytes → Except CError V1)
    (decV2 : Bytes → Except CError V2) (t1 t2 : Nat) (h1 : t1 < 4294967296)
    (h2 : t2 < 4294967296) (hne : t1 ≠ t2) (s1 s2 : Bytes) (st : Store)
    (vb : Bytes) :
    make_key s1 t1 ≠ make_key s2 t2
    ∧ TypedStore.get decV1 ((TypedStore.set decV2 st s2 t2 vb).1) s1 t1 =
        TypedStore.get decV1 st s1 t1 := by
  have hkey : make_key s1 t1 ≠ make_key s2 t2 := by
    intro heq
    have hr := congrArg List.reverse heq
    simp [make_key, le4, TYPED_NAMESPACE] at hr
    exact hne (by omega)
  refine ⟨hkey, ?_⟩
  have hset : (TypedStore.set decV2 st s2 t2 vb).1 =
      { st with map := ainsert st.map (make_key s2 t2) vb } := by
    simp only [TypedStore.set, TypedStore.setAt, Store.set_raw]
    cases halo : alookup st.map (make_key s2 t2) <;> simp [halo]
  rw [hset]
  simp only [TypedStore.get, TypedStore.getAt, Store.get_raw]
  rw [alookup_ainsert_ne _ _ _ _ hkey]

/-- C3 at a concrete input: the built-in tags of `u8` (1) and `u32` (3) with the
coinciding serialized key byte `[5]`, over the empty store. -/
theorem C3_tag_disjointness_witness :
    make_key [5] 1 ≠ make_key [5] 3
    ∧ TypedStore.get decBool
        ((TypedStore.set decBool (Store.mk [] [] [] []) [5] 3 (encBool true)).1)
        [5] 1 = TypedStore.get decBool (Store.mk [] [] [] []) [5] 1 :=
  C3_tag_disjointness decBool decBool 1 3 (by decide) (by decide) (by decide)
    [5] [5] (Store.mk [] [] [] []) (encBool true)

/-- C4 fails as stated: the composite map key of the serialized key `[7]` under
the built-in `u8` tag 1 coincides byte-for-byte with the composite list key of a
list identifier serializing to `[7, 1]` under the user-chosen tag `0x02000000`
(33554432). -/
theorem C4_counterexample :
    make_key [7] 1 = TypedList.make_list_key [7, 1] 33554432 := by decide

/-- C4 amended: a composite map key and a composite list/queue key are distinct
whenever the four tag bytes of the list identifier type differ from the last
three tag bytes of the map key type followed by the namespace marker byte — a
side condition every built-in tag satisfies, but which a user-chosen `TYPE_ID`
with high byte equal to the marker byte can violate. -/
theorem C4_map_list_disjoint_amended (s s' : Bytes) (tK tL : Nat)
    (h : le4 tL ≠ (le4 tK).drop 1 ++ TYPED_NAMESPACE) :
    make_key s tK ≠ TypedList.make_list_key s' tL := by
  intro heq
  apply h
  have hr := congrArg List.reverse heq
  simp [make_key, TypedList.make_list_key, le4, TYPED_NAMESPACE] at hr
  simp [le4, TYPED_NAMESPACE]
  omega

/-- C4 amended at a concrete input: the `u8` map tag 1 against the `u16` list
tag 2 with empty serialized keys. -/
theorem C4_map_list_disjoint_amended_witness :
    le4 2 ≠ (le4 1).drop 1 ++ TYPED_NAMESPACE
    ∧ make_key [] 1 ≠ TypedList.make_list_key [] 2 :=
  ⟨by decide, C4_map_list_disjoint_amended [] [] 1 2 (by decide)⟩

/-- C6: over a list and a queue each holding a good element followed by an
element whose value bytes `[7]` decode as no `bool`, the list iterators yield
the good element and surface the decode failure as that element's error, while
the deque iterators reach the `unwrap` panic (modelled as `none`) instead of
yielding an error element — in both directions. -/
theorem C6_deque_iter_decode_panic :
    TypedList.iter decBool decBool demoStoreIter [5] 4 =
      [Except.ok (false, true), Except.error CError.decodeError]
    ∧ TypedList.iter_backwards decBool decBool demoStoreIter [5] 4 =
      [Except.error CError.decodeError, Except.ok (false, true)]
    ∧ TypedDeque.iter decBool demoStoreIter [5] 4 =
      [some (Except.ok (0, true)), none]
    ∧ TypedDeque.iter_backwards decBool demoStoreIter [5] 4 =
      [none, some (Except.ok (0, true))] :=
  ⟨rfl, rfl, rfl, rfl⟩

/-- C5: `replace` with an expected value is a compare-and-swap.  When the bytes
stored under the composite key equal the expected value's encoding, the new
value is written and the decoded old value is returned; when they differ, and
when no entry exists, nothing is written and the answer is `ok none` in both
cases — the mismatch outcome is observably identical to absence at the typed
boundary.  The same holds for `CandyTypedList::replace` scoped to one item of
one list. -/
theorem C5_replace_cas {V : Type} (encV : V → Bytes)
    (decV : Bytes → Except CError V) (st : Store) (kb lb ib : Bytes)
    (tagK tagL : Nat) (v e : V) (hrt : decV (encV e) = Except.ok e) :
    (st.get_raw (make_key kb tagK) = some (encV e) →
      TypedStore.replace decV st kb tagK (encV v) (some (encV e)) =
        ({ st with map := ainsert st.map (make_key kb tagK) (encV v) },
         Except.ok (some e)))
    ∧ (∀ b, st.get_raw (make_key kb tagK) = some b → b ≠ encV e →
      TypedStore.replace decV st kb tagK (encV v) (some (encV e)) =
        (st, Except.ok none))
    ∧ (st.get_raw (make_key kb tagK) = none →
      TypedStore.replace decV st kb tagK (encV v) (some (encV e)) =
        (st, Except.ok none))
    ∧ (st.owned_get_from_list (TypedList.make_list_key lb tagL) ib =
        some (encV e) →
      TypedList.replace decV st lb tagL ib (encV v) (some (encV e)) =
        (st.setList (TypedList.make_list_key lb tagL)
           (ainsert (st.listItems (TypedList.make_list_key lb tagL)) ib (encV v)),
         Except.ok (some e)))
    ∧ (∀ b, st.owned_get_from_list (TypedList.make_list_key lb tagL) ib = some b →
        b ≠ encV e →
      TypedList.replace decV st lb tagL ib (encV v) (some (encV e)) =
        (st, Except.ok none))
    ∧ (st.owned_get_from_list (TypedList.make_list_key lb tagL) ib = none →
      TypedList.replace decV st lb tagL ib (encV v) (some (encV e)) =
        (st, Except.ok none)) := by
  refine ⟨?_, ?_, ?_, ?_, ?_, ?_⟩
  · intro h
    simp only [Store.get_raw] at h
    simp [TypedStore.replace, TypedStore.replaceAt, Store.replace_raw, h, hrt,
      Except.map]
  · intro b h hb
    simp only [Store.get_raw] at h
    simp [TypedStore.replace, TypedStore.replaceAt, Store.replace_raw, h, hb]
  · intro h
    simp only [Store.get_raw] at h
    simp [TypedStore.replace, TypedStore.replaceAt, Store.replace_raw, h]
  · intro h
    simp only [Store.owned_get_from_list] at h
    simp [TypedList.replace, TypedList.replaceAt, Store.owned_replace_in_list, h,
      hrt, Except.map]
  · intro b h hb
    simp only [Store.owned_get_from_list] at h
    simp [TypedList.replace, TypedList.replaceAt, Store.owned_replace_in_list, h,
      hb]
  · intro h
    simp only [Store.owned_get_from_list] at h
    simp [TypedList.replace, TypedList.replaceAt, Store.owned_replace_in_list, h]

/-- C5 at a concrete input: a store holding `true` under the composite key of
`[9]` with tag 15 and an item `[4] -> true` in the list of the same identifier.
A matching CAS swaps in `false` and returns the old `true`; a CAS expecting a
value whose encoding differs from the stored bytes leaves the store unchanged
and answers `ok none`, exactly like a CAS on an absent key. -/
theorem C5_replace_cas_witness :
    TypedStore.replace decBool demoStoreCas [9] 15 (encBool false)
        (some (encBool true)) =
      ({ demoStoreCas with
          map := ainsert demoStoreCas.map (make_key [9] 15) (encBool false) },
       Except.ok (some true))
    ∧ TypedList.replace decBool demoStoreCas [9] 15 [4] (encBool false)
        (some (encBool true)) =
      (demoStoreCas.setList (TypedList.make_list_key [9] 15)
         (ainsert (demoStoreCas.listItems (TypedList.make_list_key [9] 15)) [4]
            (encBool false)),
       Except.ok (some true))
    ∧ TypedStore.replace decBool demoStoreCas [9] 15 (encBool true)
        (some (encBool false)) = (demoStoreCas, Except.ok none)
    ∧ TypedStore.replace decBool demoStoreCas [8] 15 (encBool true)
        (some (encBool false)) = (demoStoreCas, Except.ok none) :=
  ⟨(C5_replace_cas encBool decBool demoStoreCas [9] [9] [4] 15 15 false true
      rfl).1 rfl,
   (C5_replace_cas encBool decBool demoStoreCas [9] [9] [4] 15 15 false true
      rfl).2.2.2.1 rfl,
   (C5_replace_cas encBool decBool demoStoreCas [9] [9] [4] 15 15 true false
      rfl).2.1 (encBool true) rfl (by decide),
   (C5_replace_cas encBool decBool demoStoreCas [8] [9] [4] 15 15 true false
      rfl).2.2.1 rfl⟩

/-- C7: `set` is an unconditional upsert: on a fresh composite key it writes the
value and answers `ok none`; on an existing entry it overwrites and answers the
decoded previous value. -/
theorem C7_set_upsert {V : Type} (decV : Bytes → Except CError V) (st : Store)
    (kb vb : Bytes) (tag : Nat) :
    (st.get_raw (make_key kb tag) = none →
      TypedStore.set decV st kb tag vb =
        ({ st with map := ainsert st.map (make_key kb tag) vb },
         Except.ok none))
    ∧ (∀ b w, st.get_raw (make_key kb tag) = some b → decV b = Except.ok w →
      TypedStore.set decV st kb tag vb =
        ({ st with map := ainsert st.map (make_key kb tag) vb },
         Except.ok (some w))) := by
  constructor
  · intro h
    simp only [Store.get_raw] at h
    simp [TypedStore.set, TypedStore.setAt, Store.set_raw, h]
  · intro b w h hw
    simp only [Store.get_raw] at h
    simp [TypedStore.set, TypedStore.setAt, Store.set_raw, h, hw, Except.map]

/-- C7 at a concrete input, following the spec example: a first set under a
fresh key answers `ok none`, a second set of another value under the same key
answers the decoded first value. -/
theorem C7_set_upsert_witness :
    TypedStore.set decBool (Store.mk [] [] [] []) [3] 15 (encBool true) =
      ({ Store.mk [] [] [] [] with
          map := ainsert (Store.mk [] [] [] [] : Store).map (make_key [3] 15)
            (encBool true) },
       Except.ok none)
    ∧ TypedStore.set decBool
        (Store.mk [(make_key [3] 15, encBool true)] [] [] []) [3] 15
        (encBool false) =
      ({ Store.mk [(make_key [3] 15, encBool true)] [] [] [] with
          map := ainsert
            (Store.mk [(make_key [3] 15, encBool true)] [] [] [] : Store).map
            (make_key [3] 15) (encBool false) },
       Except.ok (some true)) :=
  ⟨(C7_set_upsert decBool (Store.mk [] [] [] []) [3] (encBool true) 15).1 rfl,
   (C7_set_upsert decBool (Store.mk [(make_key [3] 15, encBool true)] [] [] [])
      [3] (encBool false) 15).2 (encBool true) true rfl rfl⟩

theorem applyOp_nextIdx_le (q : QueueState) (op : QOp) :
    q.nextIdx ≤ (q.applyOp op).nextIdx := by
  obtain ⟨items, n⟩ := q
  cases op with
  | pushHead v => simp [QueueState.applyOp, QueueState.pushHead]
  | pushTail v => simp [QueueState.applyOp, QueueState.pushTail]
  | popHead =>
    cases items <;> simp [QueueState.applyOp, QueueState.popHead]
  | popTail =>
    simp only [QueueState.applyOp, QueueState.popTail]
    cases h : List.getLast? items <;> simp [h]

theorem pushTrace_lb (ops : List QOp) (q : QueueState) :
    ∀ x ∈ pushTrace q ops, q.nextIdx ≤ x := by
  induction ops generalizing q with
  | nil => simp [pushTrace]
  | cons op ops ih =>
    intro x hx
    cases op with
    | pushHead v =>
      simp only [pushTrace, List.mem_cons] at hx
      rcases hx with rfl | hx
      · exact le_refl _
      · exact le_trans (applyOp_nextIdx_le q _) (ih _ x hx)
    | pushTail v =>
      simp only [pushTrace, List.mem_cons] at hx
      rcases hx with rfl | hx
      · exact le_refl _
      · exact le_trans (applyOp_nextIdx_le q _) (ih _ x hx)
    | popHead =>
      simp only [pushTrace] at hx
      exact le_trans (applyOp_nextIdx_le q _) (ih _ x hx)
    | popTail =>
      simp only [pushTrace] at hx
      exact le_trans (applyOp_nextIdx_le q _) (ih _ x hx)

theorem pushTrace_pairwise (ops : List QOp) (q : QueueState) :
    List.Pairwise (· < ·) (pushTrace q ops) := by
  induction ops generalizing q with
  | nil => simp [pushTrace]
  | cons op ops ih =>
    cases op with
    | pushHead v =>
      simp only [pushTrace]
      refine List.Pairwise.cons (fun x hx => ?_) (ih _)
      have := pushTrace_lb ops (q.applyOp (.pushHead v)) x hx
      simp only [QueueState.applyOp, QueueState.pushHead] at this
      omega
    | pushTail v =>
      simp only [pushTrace]
      refine List.Pairwise.cons (fun x hx => ?_) (ih _)
      have := pushTrace_lb ops (q.applyOp (.pushTail v)) x hx
      simp only [QueueState.applyOp, QueueState.pushTail] at this
      omega
    | popHead => simpa only [pushTrace] using ih _
    | popTail => simpa only [pushTrace] using ih _

theorem popTrace_mem (ops : List QOp) (q : QueueState) :
    ∀ i ∈ popTrace q ops,
      (∃ v, (i, v) ∈ q.items) ∨ i ∈ pushTrace q ops := by
  induction ops generalizing q with
  | nil => simp [popTrace]
  | cons op ops ih =>
    intro i hi
    cases op with
    | pushHead v =>
      simp only [popTrace] at hi
      rcases ih _ i hi with ⟨w, hw⟩ | hpush
      · simp only [QueueState.applyOp, QueueState.pushHead, List.mem_cons] at hw
        rcases hw with hw | hw
        · right
          simp only [pushTrace, List.mem_cons]
          exact Or.inl (congrArg Prod.fst hw)
        · exact Or.inl ⟨w, hw⟩
      · right
        simp only [pushTrace, List.mem_cons]
        exact Or.inr hpush
    | pushTail v =>
      simp only [popTrace] at hi
      rcases ih _ i hi with ⟨w, hw⟩ | hpush
      · simp only [QueueState.applyOp, QueueState.pushTail, List.mem_append,
          List.mem_singleton] at hw
        rcases hw with hw | hw
        · exact Or.inl ⟨w, hw⟩
        · right
          simp only [pushTrace, List.mem_cons]
          exact Or.inl (congrArg Prod.fst hw)
      · right
        simp only [pushTrace, List.mem_cons]
        exact Or.inr hpush
    | popHead =>
      obtain ⟨items, n⟩ := q
      cases items with
      | nil =>
        simp only [popTrace, QueueState.popHead, QueueState.applyOp] at hi ⊢
        simp only [pushTrace]
        rcases ih _ i hi with h | h
        · exact Or.inl h
        · exact Or.inr h
      | cons hd tl =>
        simp only [popTrace, QueueState.popHead, QueueState.applyOp,
          List.mem_cons] at hi
        simp only [pushTrace, QueueState.applyOp, QueueState.popHead]
        rcases hi with rfl | hi
        · exact Or.inl ⟨hd.2, List.mem_cons_self _ _⟩
        · rcases ih _ i hi with ⟨w, hw⟩ | h
          · exact Or.inl ⟨w, List.mem_cons_of_mem _ hw⟩
          · exact Or.inr h
    | popTail =>
      cases hlast : q.items.getLast? with
      | none =>
        simp only [popTrace, QueueState.popTail, QueueState.applyOp,
          hlast] at hi ⊢
        simp only [pushTrace, QueueState.applyOp, QueueState.popTail, hlast]
        exact ih _ i hi
      | some last =>
        have hdecomp := eq_dropLast_append_of_getLast? q.items last hlast
        simp only [popTrace, QueueState.popTail, QueueState.applyOp,
          hlast, List.mem_cons] at hi
        simp only [pushTrace, QueueState.applyOp, QueueState.popTail, hlast]
        rcases hi with rfl | hi
        · refine Or.inl ⟨last.2, ?_⟩
          rw [hdecomp]
          simp
        · rcases ih _ i hi with ⟨w, hw⟩ | h
          · refine Or.inl ⟨w, ?_⟩
            rw [hdecomp]
            exact List.mem_append_left _ hw
          · exact Or.inr h

/-- C9: over any interleaving of head and tail pushes and pops on one queue,
starting from a fresh queue, the indices consumed by the pushes (head and tail
pushes draw from the one shared counter) are strictly increasing in push order
— hence never reused — and every index ever returned by a pop is one that some
earlier push consumed. -/
theorem C9_queue_index_monotonicity (ops : List QOp) :
    List.Pairwise (· < ·) (pushTrace QueueState.init ops)
    ∧ (pushTrace QueueState.init ops).Nodup
    ∧ ∀ i ∈ popTrace QueueState.init ops, i ∈ pushTrace QueueState.init ops := by
  refine ⟨pushTrace_pairwise ops _, ?_, ?_⟩
  · exact (pushTrace_pairwise ops _).imp Nat.ne_of_lt
  · intro i hi
    rcases popTrace_mem ops QueueState.init i hi with ⟨v, hv⟩ | h
    · simp [QueueState.init] at hv
    · exact h

/-- C9 at a concrete interleaving: a tail push consuming index 0, a head push
consuming index 1, then a head pop returning index 1. -/
theorem C9_queue_index_monotonicity_witness :
    List.Pairwise (· < ·)
      (pushTrace QueueState.init [QOp.pushTail [0], QOp.pushHead [1], QOp.popHead])
    ∧ (1 : Nat) ∈
      popTrace QueueState.init [QOp.pushTail [0], QOp.pushHead [1], QOp.popHead]
    ∧ (1 : Nat) ∈
      pushTrace QueueState.init [QOp.pushTail [0], QOp.pushHead [1], QOp.popHead] :=
  ⟨(C9_queue_index_monotonicity
      [QOp.pushTail [0], QOp.pushHead [1], QOp.popHead]).1,
   by decide,
   (C9_queue_index_monotonicity
      [QOp.pushTail [0], QOp.pushHead [1], QOp.popHead]).2.2 1 (by decide)⟩
